import Mathlib

/-!
Verification development for the mcp-proxy (lazy-mcp-preload) repository.

The definitions below are a shallow embedding of the Go sources:
  - package config (configuration parsing and validation),
  - the structure generator command (tool fetching from configured servers),
and, where the repository code is not available in the source tree, models
built from the written specification (each such definition is marked with
a doc comment starting with the words Modelled from the spec).

Go strings are embedded as Lean String values; Go slices as List; Go maps
as association lists (one fixed iteration order); Go pointer-typed struct
fields that may be nil as Option.  Fallible Go functions returning
(T, error) are embedded as Except with a structured error type that keeps
the data carried by the corresponding Go error message.
-/

namespace MCPProxy

/-! ## Go string primitives used by the config package -/

/-- Embedding of Go strings.HasPrefix on character lists. -/
def goStartsWith : List Char → List Char → Bool
  | _, [] => true
  | [], _ :: _ => false
  | c :: cs, p :: ps => (c == p) && goStartsWith cs ps

/-- Embedding of Go strings.Contains on character lists: the second list
occurs contiguously somewhere inside the first. -/
def goContains (s pat : List Char) : Bool :=
  match s with
  | [] => pat.isEmpty
  | c :: rest => goStartsWith (c :: rest) pat || goContains rest pat

/-- Go strings.Contains on String values. -/
def strContains (s pat : String) : Bool := goContains s.data pat.data

/-- Go strings.HasPrefix on String values. -/
def strStartsWith (s pat : String) : Bool := goStartsWith s.data pat.data

/-! ## Config data model (src/unnamed/part_003, package config) -/

/-- config.ToolFilterConfig. -/
structure ToolFilterConfig where
  mode : String
  list : List String
deriving Repr, DecidableEq

/-- config.OptionsV2.  The optional.Field values and the nil-able token
slice are embedded as Option. -/
structure OptionsV2 where
  panicIfInvalid : Option Bool
  logEnabled : Option Bool
  lazyLoad : Option Bool
  recursiveLazyLoad : Option Bool
  preloadAll : Option Bool
  authTokens : Option (List String)
  toolFilter : Option ToolFilterConfig
deriving Repr, DecidableEq

/-- The zero value OptionsV2\x7b\x7d used by config.Load when an options
pointer is nil. -/
def emptyOptions : OptionsV2 :=
  { panicIfInvalid := none, logEnabled := none, lazyLoad := none,
    recursiveLazyLoad := none, preloadAll := none, authTokens := none,
    toolFilter := none }

/-- config.StdioMCPClientConfig. -/
structure StdioMCPClientConfig where
  command : String
  env : List (String × String)
  args : List String
deriving Repr, DecidableEq

/-- config.SSEMCPClientConfig. -/
structure SSEMCPClientConfig where
  url : String
  headers : List (String × String)
deriving Repr, DecidableEq

/-- config.StreamableMCPClientConfig (timeout is a Go time.Duration,
an integer nanosecond count). -/
structure StreamableMCPClientConfig where
  url : String
  headers : List (String × String)
  timeout : Int
deriving Repr, DecidableEq

/-- config.MCPClientTypeStdio. -/
def MCPClientTypeStdio : String := "stdio"

/-- config.MCPClientTypeSSE. -/
def MCPClientTypeSSE : String := "sse"

/-- config.MCPClientTypeStreamable. -/
def MCPClientTypeStreamable : String := "streamable-http"

/-- config.MCPServerTypeStdio. -/
def MCPServerTypeStdio : String := "stdio"

/-- config.MCPServerTypeSSE. -/
def MCPServerTypeSSE : String := "sse"

/-- config.MCPClientConfigV2. -/
structure MCPClientConfigV2 where
  transportType : String
  command : String
  args : List String
  env : List (String × String)
  url : String
  headers : List (String × String)
  timeout : Int
  options : Option OptionsV2
deriving Repr, DecidableEq

/-- config.MCPProxyConfigV2. -/
structure MCPProxyConfigV2 where
  baseURL : String
  addr : String
  name : String
  version : String
  type : String
  hierarchyPath : String
  options : Option OptionsV2
deriving Repr, DecidableEq

/-! ## validateStdioCommand (src/unnamed/part_003 lines 333-359) -/

/-- The structured content of the errors validateStdioCommand can return. -/
inductive StdioValidationError where
  | dangerousCommand (pattern : String)
  | dangerousArg (index : Nat) (pattern : String)
  | notAbsolutePath (command : String)
deriving Repr, DecidableEq

/-- The dangerousPatterns slice of validateStdioCommand, in source order. -/
def dangerousPatterns : List String :=
  [";", "|", "&&", "||", "`", "$(", "$\x7b", ">", "<", "&"]

/-- The allowedRelative interpreter allow-list of validateStdioCommand. -/
def allowedRelative : List String :=
  ["python", "python3", "node", "npx", "go", "ruby"]

/-- Index of the first argument containing the pattern, mirroring the
indexed range loop inside validateStdioCommand. -/
def findBadArg (pat : String) : Nat → List String → Option Nat
  | _, [] => none
  | i, a :: rest => if strContains a pat then some i else findBadArg pat (i + 1) rest

/-- The pattern loop of validateStdioCommand: for each pattern in order,
the command is checked first, then each argument in order. -/
def checkPatterns (command : String) (args : List String) :
    List String → Option StdioValidationError
  | [] => none
  | p :: ps =>
    if strContains command p then some (.dangerousCommand p)
    else
      match findBadArg p 0 args with
      | some i => some (.dangerousArg i p)
      | none => checkPatterns command args ps

/-- config.validateStdioCommand: Option carries the returned error,
none means the Go function returned nil. -/
def validateStdioCommand (command : String) (args : List String) :
    Option StdioValidationError :=
  match checkPatterns command args dangerousPatterns with
  | some e => some e
  | none =>
    if !(strStartsWith command "/") && !(command == "") then
      if command ∈ allowedRelative then none
      else some (.notAbsolutePath command)
    else none

/-! ## ParseMCPClientConfigV2 (src/unnamed/part_003 lines 361-390) -/

/-- The three concrete client configurations ParseMCPClientConfigV2 can
produce (its Go result type is any). -/
inductive ParsedClientConfig where
  | stdio (c : StdioMCPClientConfig)
  | sse (c : SSEMCPClientConfig)
  | streamable (c : StreamableMCPClientConfig)
deriving Repr, DecidableEq

/-- The structured content of the errors ParseMCPClientConfigV2 can return. -/
inductive ParseError where
  | commandRequired
  | stdioValidation (e : StdioValidationError)
  | invalidServerType
deriving Repr, DecidableEq

/-- config.ParseMCPClientConfigV2. -/
def ParseMCPClientConfigV2 (conf : MCPClientConfigV2) :
    Except ParseError ParsedClientConfig :=
  if conf.command ≠ "" ∨ conf.transportType = MCPClientTypeStdio then
    if conf.command = "" then .error .commandRequired
    else
      match validateStdioCommand conf.command conf.args with
      | some e => .error (.stdioValidation e)
      | none => .ok (.stdio ⟨conf.command, conf.env, conf.args⟩)
  else if conf.url ≠ "" then
    if conf.transportType = MCPClientTypeStreamable then
      .ok (.streamable ⟨conf.url, conf.headers, conf.timeout⟩)
    else
      .ok (.sse ⟨conf.url, conf.headers⟩)
  else .error .invalidServerType

/-! ## Lemmas about the stdio validation logic -/

/-- goStartsWith accepts the empty pattern on every string. -/
theorem goStartsWith_nil (s : List Char) : goStartsWith s [] = true := by
  cases s <;> rfl

/-- If a string starts with a pattern, it starts with the head of that
pattern alone. -/
theorem goStartsWith_single {s : List Char} {c : Char} {ps : List Char}
    (h : goStartsWith s (c :: ps) = true) : goStartsWith s [c] = true := by
  cases s with
  | nil => simp [goStartsWith] at h
  | cons x xs =>
    simp only [goStartsWith, Bool.and_eq_true] at h ⊢
    refine ⟨h.1, ?_⟩
    simp [goStartsWith_nil]

/-- If a string contains a pattern, it contains the head character of
that pattern alone. -/
theorem goContains_single_of_cons {s : List Char} {c : Char} {ps : List Char}
    (h : goContains s (c :: ps) = true) : goContains s [c] = true := by
  induction s with
  | nil => simp [goContains] at h
  | cons x xs ih =>
    simp only [goContains, Bool.or_eq_true] at h ⊢
    rcases h with h | h
    · exact Or.inl (goStartsWith_single h)
    · exact Or.inr (ih h)

/-- The condition of the claim: a pattern occurs in the command or in
some argument. -/
def patternHits (p command : String) (args : List String) : Bool :=
  strContains command p || args.any (fun a => strContains a p)

/-- If a two-character pattern hits, the pattern made of its first
character alone hits as well. -/
theorem patternHits_head {command : String} {args : List String}
    {p q : String} {c : Char} {ps : List Char}
    (hp : p.data = c :: ps) (hq : q.data = [c])
    (h : patternHits p command args = true) : patternHits q command args = true := by
  simp only [patternHits, Bool.or_eq_true, List.any_eq_true] at h ⊢
  have key : ∀ s : String, strContains s p = true → strContains s q = true := by
    intro s hs
    unfold strContains at hs ⊢
    rw [hp] at hs
    rw [hq]
    exact goContains_single_of_cons hs
  rcases h with h | ⟨a, ha, hc⟩
  · exact Or.inl (key _ h)
  · exact Or.inr ⟨a, ha, key _ hc⟩

/-- The argument scan finds nothing exactly when no argument contains
the pattern. -/
theorem findBadArg_eq_none_iff (p : String) (args : List String) :
    ∀ i, findBadArg p i args = none ↔ ∀ a ∈ args, strContains a p = false := by
  induction args with
  | nil => intro i; simp [findBadArg]
  | cons a rest ih =>
    intro i
    by_cases h : strContains a p = true
    · simp [findBadArg, h]
    · have hf : strContains a p = false := by
        cases hsc : strContains a p
        · rfl
        · exact absurd hsc h
      simp [findBadArg, hf, ih (i + 1)]

/-- A pattern fails to hit exactly when it is in neither the command nor
any argument. -/
theorem patternHits_eq_false_iff (p command : String) (args : List String) :
    patternHits p command args = false ↔
      (strContains command p = false ∧ ∀ a ∈ args, strContains a p = false) := by
  constructor
  · intro h
    have h' : ¬ patternHits p command args = true := by simp [h]
    simp only [patternHits, Bool.or_eq_true, List.any_eq_true, not_or,
      not_exists] at h'
    refine ⟨by simpa using h'.1, ?_⟩
    intro a ha
    have := h'.2 a
    simp [ha] at this
    simpa using this
  · intro ⟨h1, h2⟩
    simp only [patternHits, Bool.or_eq_false_iff]
    refine ⟨h1, ?_⟩
    simp only [List.any_eq_false]
    intro a ha
    simp [h2 a ha]

/-- The pattern loop returns no error exactly when no listed pattern
hits the command or an argument. -/
theorem checkPatterns_eq_none_iff (command : String) (args : List String) :
    ∀ ps : List String, checkPatterns command args ps = none ↔
      ∀ p ∈ ps, patternHits p command args = false := by
  intro ps
  induction ps with
  | nil => simp [checkPatterns]
  | cons p rest ih =>
    by_cases hc : strContains command p = true
    · have hhit : patternHits p command args = true := by
        simp [patternHits, hc]
      simp [checkPatterns, hc, hhit]
    · have hcf : strContains command p = false := by
        cases h : strContains command p
        · rfl
        · exact absurd h hc
      cases hfb : findBadArg p 0 args with
      | some i =>
        have hbad : ¬ ∀ a ∈ args, strContains a p = false := by
          intro hall
          have := (findBadArg_eq_none_iff p args 0).mpr hall
          rw [this] at hfb
          exact Option.noConfusion hfb
        have hhit : ¬ patternHits p command args = false := by
          intro hfalse
          exact hbad ((patternHits_eq_false_iff p command args).mp hfalse).2
        simp only [checkPatterns, hcf, Bool.false_eq_true, if_false, hfb]
        simp only [List.forall_mem_cons]
        constructor
        · intro h; exact absurd h (by simp)
        · intro ⟨h1, _⟩; exact absurd h1 hhit
      | none =>
        simp only [checkPatterns, hcf, Bool.false_eq_true, if_false, hfb, ih]
        simp only [List.forall_mem_cons]
        constructor
        · intro h
          exact ⟨(patternHits_eq_false_iff p command args).mpr ⟨hcf, (findBadArg_eq_none_iff p args 0).mp hfb⟩, h⟩
        · intro ⟨_, h⟩; exact h

/-- The shell metacharacters named by the claim. -/
def claimMetachars : List String :=
  [";", "|", "&", "`", "$(", "$\x7b", ">", "<"]

/-- Some pattern of the source list hits exactly when some metacharacter
of the claim list hits: the extra double patterns of the source are
subsumed by their single-character forms. -/
theorem dangerous_hits_iff_claim_hits (command : String) (args : List String) :
    (∃ p ∈ dangerousPatterns, patternHits p command args = true) ↔
      (∃ p ∈ claimMetachars, patternHits p command args = true) := by
  constructor
  · rintro ⟨p, hp, hh⟩
    have hp' : p = ";" ∨ p = "|" ∨ p = "&&" ∨ p = "||" ∨ p = "`" ∨
        p = "$(" ∨ p = "$\x7b" ∨ p = ">" ∨ p = "<" ∨ p = "&" := by
      simpa [dangerousPatterns] using hp
    rcases hp' with rfl | rfl | rfl | rfl | rfl | rfl | rfl | rfl | rfl | rfl
    · exact ⟨";", by decide, hh⟩
    · exact ⟨"|", by decide, hh⟩
    · exact ⟨"&", by decide, patternHits_head rfl rfl hh⟩
    · exact ⟨"|", by decide, patternHits_head rfl rfl hh⟩
    · exact ⟨"`", by decide, hh⟩
    · exact ⟨"$(", by decide, hh⟩
    · exact ⟨"$\x7b", by decide, hh⟩
    · exact ⟨">", by decide, hh⟩
    · exact ⟨"<", by decide, hh⟩
    · exact ⟨"&", by decide, hh⟩
  · rintro ⟨p, hp, hh⟩
    have hp' : p = ";" ∨ p = "|" ∨ p = "&" ∨ p = "`" ∨ p = "$(" ∨
        p = "$\x7b" ∨ p = ">" ∨ p = "<" := by
      simpa [claimMetachars] using hp
    rcases hp' with rfl | rfl | rfl | rfl | rfl | rfl | rfl | rfl
    · exact ⟨";", by decide, hh⟩
    · exact ⟨"|", by decide, hh⟩
    · exact ⟨"&", by decide, hh⟩
    · exact ⟨"`", by decide, hh⟩
    · exact ⟨"$(", by decide, hh⟩
    · exact ⟨"$\x7b", by decide, hh⟩
    · exact ⟨">", by decide, hh⟩
    · exact ⟨"<", by decide, hh⟩

/-- No source pattern hits exactly when no claim metacharacter hits. -/
theorem no_dangerous_iff_no_claim (command : String) (args : List String) :
    (∀ p ∈ dangerousPatterns, patternHits p command args = false) ↔
      (∀ p ∈ claimMetachars, patternHits p command args = false) := by
  constructor <;> intro h p hp
  · by_contra hne
    have ht : patternHits p command args = true := by
      cases hx : patternHits p command args
      · exact absurd hx hne
      · rfl
    obtain ⟨q, hq, hqt⟩ := (dangerous_hits_iff_claim_hits command args).mpr ⟨p, hp, ht⟩
    have := h q hq
    rw [this] at hqt
    exact Bool.noConfusion hqt
  · by_contra hne
    have ht : patternHits p command args = true := by
      cases hx : patternHits p command args
      · exact absurd hx hne
      · rfl
    obtain ⟨q, hq, hqt⟩ := (dangerous_hits_iff_claim_hits command args).mp ⟨p, hp, ht⟩
    have := h q hq
    rw [this] at hqt
    exact Bool.noConfusion hqt

/-- validateStdioCommand accepts a non-empty command exactly when no claim
metacharacter hits and the command is absolute or allow-listed. -/
theorem validateStdioCommand_eq_none_iff (command : String) (args : List String)
    (hc : command ≠ "") :
    validateStdioCommand command args = none ↔
      ((∀ p ∈ claimMetachars, patternHits p command args = false) ∧
       (strStartsWith command "/" = true ∨ command ∈ allowedRelative)) := by
  unfold validateStdioCommand
  cases hcp : checkPatterns command args dangerousPatterns with
  | some e =>
    simp only []
    constructor
    · intro h; exact Option.noConfusion h
    · intro ⟨h1, _⟩
      have := (checkPatterns_eq_none_iff command args dangerousPatterns).mpr
        ((no_dangerous_iff_no_claim command args).mpr h1)
      rw [this] at hcp
      exact Option.noConfusion hcp
  | none =>
    have hclaim : ∀ p ∈ claimMetachars, patternHits p command args = false :=
      (no_dangerous_iff_no_claim command args).mp
        ((checkPatterns_eq_none_iff command args dangerousPatterns).mp hcp)
    have hne : (command == "") = false := by
      cases h : command == ""
      · rfl
      · exact absurd (by simpa using h) hc
    by_cases hsw : strStartsWith command "/" = true
    · simp only [hsw, Bool.not_true, Bool.false_and, Bool.false_eq_true,
        if_false, true_or, and_true, iff_true_intro hclaim, iff_true]
    · have hswf : strStartsWith command "/" = false := by
        cases h : strStartsWith command "/"
        · rfl
        · exact absurd h hsw
      by_cases hmem : command ∈ allowedRelative
      · simp only [hswf, hne, Bool.not_false, Bool.true_and, if_true,
          hmem, if_pos, or_true, and_true, iff_true_intro hclaim, iff_true]
      · simp [hswf, hne, hmem, hclaim]

/-! ## Claim C1 -/

/-- The rejection condition stated by the claim for stdio configurations. -/
def rejectSpec (conf : MCPClientConfigV2) : Prop :=
  conf.command = "" ∨
  (∃ p ∈ claimMetachars, patternHits p conf.command conf.args = true) ∨
  (conf.command ≠ "" ∧ strStartsWith conf.command "/" = false ∧
    conf.command ∉ allowedRelative)

instance (conf : MCPClientConfigV2) : Decidable (rejectSpec conf) := by
  unfold rejectSpec
  infer_instance

/-- C1: a stdio client configuration (one with a non-empty command, or one
whose transportType discriminator is stdio) is rejected by
ParseMCPClientConfigV2 exactly when the command is empty, or one of the
shell metacharacters of the claim occurs in the command or in an argument,
or the command is non-empty, not absolute, and not an allow-listed
interpreter; every other stdio configuration is accepted and yields a
StdioMCPClientConfig preserving command, args and env. -/
theorem parse_stdio_reject_iff (conf : MCPClientConfigV2)
    (h : conf.command ≠ "" ∨ conf.transportType = MCPClientTypeStdio) :
    ((∃ e, ParseMCPClientConfigV2 conf = .error e) ↔ rejectSpec conf) ∧
    (¬ rejectSpec conf →
      ParseMCPClientConfigV2 conf =
        .ok (.stdio ⟨conf.command, conf.env, conf.args⟩)) := by
  by_cases hcmd : conf.command = ""
  · have hbranch : ParseMCPClientConfigV2 conf = .error .commandRequired := by
      unfold ParseMCPClientConfigV2
      rw [if_pos h, if_pos hcmd]
    have hrej : rejectSpec conf := Or.inl hcmd
    refine ⟨⟨fun _ => hrej, fun _ => ⟨.commandRequired, hbranch⟩⟩, fun hn => absurd hrej hn⟩
  · cases hv : validateStdioCommand conf.command conf.args with
    | some e =>
      have hbranch : ParseMCPClientConfigV2 conf = .error (.stdioValidation e) := by
        unfold ParseMCPClientConfigV2
        rw [if_pos h, if_neg hcmd, hv]
      have hrej : rejectSpec conf := by
        have hnot : ¬ ((∀ p ∈ claimMetachars,
            patternHits p conf.command conf.args = false) ∧
            (strStartsWith conf.command "/" = true ∨
              conf.command ∈ allowedRelative)) := by
          intro hok
          have := (validateStdioCommand_eq_none_iff conf.command conf.args hcmd).mpr hok
          rw [this] at hv
          exact Option.noConfusion hv
        rw [not_and_or] at hnot
        rcases hnot with hA | hB
        · refine Or.inr (Or.inl ?_)
          rw [not_forall] at hA
          obtain ⟨p, hp⟩ := hA
          rw [Classical.not_imp] at hp
          obtain ⟨hmem, hval⟩ := hp
          refine ⟨p, hmem, ?_⟩
          cases hx : patternHits p conf.command conf.args
          · exact absurd hx hval
          · rfl
        · refine Or.inr (Or.inr ⟨hcmd, ?_, ?_⟩)
          · rw [not_or] at hB
            cases hx : strStartsWith conf.command "/"
            · rfl
            · exact absurd hx hB.1
          · rw [not_or] at hB
            exact hB.2
      refine ⟨⟨fun _ => hrej, fun _ => ⟨.stdioValidation e, hbranch⟩⟩,
        fun hn => absurd hrej hn⟩
    | none =>
      have hbranch : ParseMCPClientConfigV2 conf =
          .ok (.stdio ⟨conf.command, conf.env, conf.args⟩) := by
        unfold ParseMCPClientConfigV2
        rw [if_pos h, if_neg hcmd, hv]
      have hok := (validateStdioCommand_eq_none_iff conf.command conf.args hcmd).mp hv
      have hnrej : ¬ rejectSpec conf := by
        intro hrej
        rcases hrej with h1 | h2 | h3
        · exact hcmd h1
        · obtain ⟨p, hp, hhit⟩ := h2
          have := hok.1 p hp
          rw [this] at hhit
          exact Bool.noConfusion hhit
        · rcases hok.2 with hsw | hmem
          · rw [h3.2.1] at hsw
            exact Bool.noConfusion hsw
          · exact h3.2.2 hmem
      refine ⟨⟨?_, fun hrej => absurd hrej hnrej⟩, fun _ => hbranch⟩
      intro ⟨e, he⟩
      rw [hbranch] at he
      exact Except.noConfusion he

/-- A concrete stdio configuration accepted by the parser. -/
def stdioConfExample : MCPClientConfigV2 :=
  { transportType := "stdio", command := "/usr/bin/tool",
    args := ["--flag", "value"], env := [("KEY", "VAL")],
    url := "", headers := [], timeout := 0, options := none }

/-- Witness for C1: the theorem applied to a concrete configuration. -/
theorem parse_stdio_reject_iff_witness :
    ParseMCPClientConfigV2 stdioConfExample =
      .ok (.stdio ⟨stdioConfExample.command, stdioConfExample.env,
        stdioConfExample.args⟩) :=
  (parse_stdio_reject_iff stdioConfExample (Or.inl (by decide))).2 (by decide)

/-! ## Structure generator (src/structure_generator/cmd/main.go)

The generator command connects to configured MCP servers and fetches their
tool lists.  The network and process side (client creation, Start,
Initialize, ListTools) is abstracted as a connect oracle passed to each
fetcher; the fetchers run their configuration validation before consulting
the oracle, exactly as the Go code validates before creating a client.
The JSON payload of a tool input schema is irrelevant to every claim and
is elided from the Tool record. -/

/-- generator.Tool (name and description; the schema payload is elided). -/
structure Tool where
  name : String
  description : String
deriving Repr, DecidableEq

/-- generator.ServerTools. -/
structure ServerTools where
  serverName : String
  tools : List Tool
deriving Repr, DecidableEq

/-- main.ServerConfig of the generator command. -/
structure ServerConfig where
  transportType : String
  command : String
  args : List String
  url : String
  env : List (String × String)
deriving Repr, DecidableEq

/-- The structured content of the errors the fetchers can return. -/
inductive FetchError where
  | commandRequired
  | urlRequired
  | transportUnsupported (t : String)
  | clientFailure (msg : String)
deriving Repr, DecidableEq

/-- main.fetchToolsFromStdioServer: rejects an empty command, then runs
the spawn-initialize-list round trip (the connect oracle) and labels the
result with the server name. -/
def fetchToolsFromStdioServer (name : String) (config : ServerConfig)
    (connect : String → List String → Except FetchError (List Tool)) :
    Except FetchError ServerTools :=
  if config.command = "" then .error .commandRequired
  else (connect config.command config.args).map (fun ts => ⟨name, ts⟩)

/-- main.fetchToolsFromSSEServer: rejects an empty URL before any client
is created, then runs the start-initialize-list round trip (the connect
oracle) and labels the result with the server name. -/
def fetchToolsFromSSEServer (name : String) (config : ServerConfig)
    (connect : String → Except FetchError (List Tool)) :
    Except FetchError ServerTools :=
  if config.url = "" then .error .urlRequired
  else (connect config.url).map (fun ts => ⟨name, ts⟩)

/-- main.fetchToolsFromHTTPServer: rejects an empty URL before any client
is created, then runs the start-initialize-list round trip (the connect
oracle) and labels the result with the server name. -/
def fetchToolsFromHTTPServer (name : String) (config : ServerConfig)
    (connect : String → Except FetchError (List Tool)) :
    Except FetchError ServerTools :=
  if config.url = "" then .error .urlRequired
  else (connect config.url).map (fun ts => ⟨name, ts⟩)

/-- main.fetchToolsFromServer: transport dispatch with stdio default. -/
def fetchToolsFromServer (name : String) (config : ServerConfig)
    (stdioConnect : String → List String → Except FetchError (List Tool))
    (remoteConnect : String → Except FetchError (List Tool)) :
    Except FetchError ServerTools :=
  let t := if config.transportType = "" then "stdio" else config.transportType
  if t = "stdio" then fetchToolsFromStdioServer name config stdioConnect
  else if t = "sse" then fetchToolsFromSSEServer name config remoteConnect
  else if t = "http" then fetchToolsFromHTTPServer name config remoteConnect
  else .error (.transportUnsupported t)

/-- main.fetchFromConfig: iterates the configured servers (the Go map in
one fixed iteration order), skips each server whose fetch fails, and
collects every fetched tool list. -/
def fetchFromConfig (servers : List (String × ServerConfig))
    (fetch : String → ServerConfig → Except FetchError ServerTools) :
    List ServerTools :=
  match servers with
  | [] => []
  | (n, c) :: rest =>
    match fetch n c with
    | .error _ => fetchFromConfig rest fetch
    | .ok st => st :: fetchFromConfig rest fetch

/-! ## Claim C4 -/

/-- C4: with an empty command and an empty URL, ParseMCPClientConfigV2
returns an error and no client config (command-required when the
discriminator says stdio, invalid-server-type otherwise); and the SSE and
streaming-HTTP fetchers return an error without consulting the connect
oracle when the URL is empty. -/
theorem empty_url_rejected (conf : MCPClientConfigV2) (name : String)
    (cfg : ServerConfig) (connect : String → Except FetchError (List Tool))
    (hc : conf.command = "") (hu : conf.url = "") (hcu : cfg.url = "") :
    ParseMCPClientConfigV2 conf =
      .error (if conf.transportType = MCPClientTypeStdio
        then ParseError.commandRequired else ParseError.invalidServerType) ∧
    fetchToolsFromSSEServer name cfg connect = .error .urlRequired ∧
    fetchToolsFromHTTPServer name cfg connect = .error .urlRequired := by
  refine ⟨?_, ?_, ?_⟩
  · by_cases ht : conf.transportType = MCPClientTypeStdio
    · unfold ParseMCPClientConfigV2
      rw [if_pos (Or.inr ht), if_pos hc, if_pos ht]
    · unfold ParseMCPClientConfigV2
      rw [if_neg ?_, if_neg ?_, if_neg ht]
      · simp [hu]
      · rintro (h1 | h2)
        · exact h1 hc
        · exact ht h2
  · unfold fetchToolsFromSSEServer
    rw [if_pos hcu]
  · unfold fetchToolsFromHTTPServer
    rw [if_pos hcu]

/-- A concrete configuration with no command and no URL. -/
def emptyEndpointConf : MCPClientConfigV2 :=
  { transportType := "sse", command := "", args := [], env := [],
    url := "", headers := [], timeout := 0, options := none }

/-- A concrete generator server configuration with an empty URL. -/
def emptyURLServerCfg : ServerConfig :=
  { transportType := "sse", command := "", args := [], url := "", env := [] }

/-- Witness for C4: the theorem applied to concrete configurations and a
concrete connect oracle. -/
theorem empty_url_rejected_witness :
    ParseMCPClientConfigV2 emptyEndpointConf =
      .error (if emptyEndpointConf.transportType = MCPClientTypeStdio
        then ParseError.commandRequired else ParseError.invalidServerType) ∧
    fetchToolsFromSSEServer "ctx" emptyURLServerCfg (fun _ => .ok []) =
      .error .urlRequired ∧
    fetchToolsFromHTTPServer "ctx" emptyURLServerCfg (fun _ => .ok []) =
      .error .urlRequired :=
  empty_url_rejected emptyEndpointConf "ctx" emptyURLServerCfg
    (fun _ => .ok []) rfl rfl rfl

/-! ## Claim C5 (corrected) -/

/-- A configuration with an empty command, a non-empty URL, and the stdio
discriminator: the stdio branch wins and parsing fails, so no SSE client
config is produced. -/
def stdioTypedStreamConf : MCPClientConfigV2 :=
  { transportType := "stdio", command := "", args := [], env := [],
    url := "http://example.com/mcp", headers := [], timeout := 0,
    options := none }

/-- Counterexample to C5 as stated: this configuration has an empty
command, a non-empty URL and a discriminator different from
streamable-http, yet ParseMCPClientConfigV2 returns the command-required
error instead of an SSEMCPClientConfig. -/
theorem stream_selection_counterexample :
    stdioTypedStreamConf.command = "" ∧
    stdioTypedStreamConf.url ≠ "" ∧
    stdioTypedStreamConf.transportType ≠ MCPClientTypeStreamable ∧
    ParseMCPClientConfigV2 stdioTypedStreamConf = .error .commandRequired ∧
    ParseMCPClientConfigV2 stdioTypedStreamConf ≠
      .ok (.sse ⟨stdioTypedStreamConf.url, stdioTypedStreamConf.headers⟩) := by
  refine ⟨rfl, by decide, by decide, rfl, ?_⟩
  intro hcontra
  have heq : ParseMCPClientConfigV2 stdioTypedStreamConf =
      Except.error ParseError.commandRequired := rfl
  rw [heq] at hcontra
  exact Except.noConfusion hcontra

/-- C5 amended: for a configuration with an empty command, a non-empty URL
and a discriminator other than stdio, the transport is selected by the
transportType discriminator: a StreamableMCPClientConfig preserving URL,
headers and timeout exactly when the discriminator is streamable-http,
and otherwise an SSEMCPClientConfig preserving URL and headers. -/
theorem stream_transport_selection (conf : MCPClientConfigV2)
    (hc : conf.command = "") (hu : conf.url ≠ "")
    (ht : conf.transportType ≠ MCPClientTypeStdio) :
    (conf.transportType = MCPClientTypeStreamable →
      ParseMCPClientConfigV2 conf =
        .ok (.streamable ⟨conf.url, conf.headers, conf.timeout⟩)) ∧
    (conf.transportType ≠ MCPClientTypeStreamable →
      ParseMCPClientConfigV2 conf = .ok (.sse ⟨conf.url, conf.headers⟩)) := by
  have hnot : ¬ (conf.command ≠ "" ∨ conf.transportType = MCPClientTypeStdio) := by
    rintro (h1 | h2)
    · exact h1 hc
    · exact ht h2
  constructor
  · intro hs
    unfold ParseMCPClientConfigV2
    rw [if_neg hnot, if_pos hu, if_pos hs]
  · intro hs
    unfold ParseMCPClientConfigV2
    rw [if_neg hnot, if_pos hu, if_neg hs]

/-- A concrete streamable-http configuration. -/
def streamableConfExample : MCPClientConfigV2 :=
  { transportType := "streamable-http", command := "", args := [], env := [],
    url := "http://example.com/mcp", headers := [("Auth", "t")],
    timeout := 30, options := none }

/-- Witness for the amended C5: the theorem applied to a concrete
streamable-http configuration. -/
theorem stream_transport_selection_witness :
    ParseMCPClientConfigV2 streamableConfExample =
      .ok (.streamable ⟨streamableConfExample.url,
        streamableConfExample.headers, streamableConfExample.timeout⟩) :=
  (stream_transport_selection streamableConfExample rfl (by decide)
    (by decide)).1 rfl

/-! ## Claim C8 -/

/-- C8: a non-empty command always selects the stdio branch: the parse
result is unchanged under any replacement of the transportType, url,
headers and timeout fields, and a successful parse always yields the
StdioMCPClientConfig built from command, env and args. -/
theorem command_precedence (conf : MCPClientConfigV2) (tt url' : String)
    (hd : List (String × String)) (to' : Int) (h : conf.command ≠ "") :
    ParseMCPClientConfigV2 conf =
      ParseMCPClientConfigV2
        { conf with
          transportType := tt
          url := url'
          headers := hd
          timeout := to' } ∧
    (∀ r, ParseMCPClientConfigV2 conf = .ok r →
      r = .stdio ⟨conf.command, conf.env, conf.args⟩) := by
  constructor
  · show ParseMCPClientConfigV2 conf = ParseMCPClientConfigV2 _
    unfold ParseMCPClientConfigV2
    rw [if_pos (Or.inl h), if_pos (Or.inl h), if_neg h]
  · intro r hr
    unfold ParseMCPClientConfigV2 at hr
    rw [if_pos (Or.inl h), if_neg h] at hr
    cases hv : validateStdioCommand conf.command conf.args with
    | some e =>
      rw [hv] at hr
      exact Except.noConfusion hr
    | none =>
      rw [hv] at hr
      exact (Except.ok.inj hr).symm

/-- Witness for C8: the theorem applied to a concrete configuration and
concrete replacement values. -/
theorem command_precedence_witness :
    ParseMCPClientConfigV2 stdioConfExample =
      ParseMCPClientConfigV2
        { stdioConfExample with
          transportType := "streamable-http"
          url := "http://ignored.example"
          headers := [("K", "V")]
          timeout := 99 } :=
  (command_precedence stdioConfExample "streamable-http"
    "http://ignored.example" [("K", "V")] 99 (by decide)).1

/-! ## Claim C6 -/

/-- C6: a failing backend never aborts the others: fetchFromConfig returns
exactly the tool lists of the servers whose fetch succeeded, in
configuration order, whatever errors the other fetches produced. -/
theorem fetch_graceful_degradation (servers : List (String × ServerConfig))
    (fetch : String → ServerConfig → Except FetchError ServerTools) :
    fetchFromConfig servers fetch =
      servers.filterMap (fun p => (fetch p.1 p.2).toOption) := by
  induction servers with
  | nil => rfl
  | cons hd rest ih =>
    obtain ⟨n, c⟩ := hd
    cases hf : fetch n c with
    | error e => simp [fetchFromConfig, hf, ih, Except.toOption]
    | ok st => simp [fetchFromConfig, hf, ih, Except.toOption]

/-! ## config.Load (src/unnamed/part_003 lines 446-509)

The provider construction, the confstore decode, and the V1-to-V2
adaptation are the environment of Load: the embedding takes the decoded
FullConfig (after adaptation) as input and performs the validation and
defaulting logic of the Load body, which is the code under src. -/

/-- config.FullConfig, restricted to its V2 fields (the deprecated V1
fields are consumed by the adaptation step, which precedes the embedded
logic). -/
structure FullConfig where
  mcpProxy : Option MCPProxyConfigV2
  mcpServers : List (String × MCPClientConfigV2)
deriving Repr, DecidableEq

/-- config.Config. -/
structure Config where
  mcpProxy : MCPProxyConfigV2
  mcpServers : List (String × MCPClientConfigV2)
deriving Repr, DecidableEq

/-- The structured content of the errors the embedded Load body can
return. -/
inductive LoadError where
  | mcpProxyRequired
  | authTokenTooShort (index length : Nat)
deriving Repr, DecidableEq

/-- config.MinTokenLength. -/
def MinTokenLength : Nat := 24

/-- config.validateAuthTokens: index and byte length of the first token
shorter than MinTokenLength, none when every token is long enough.  Go
len on a string counts UTF-8 bytes, embedded as String.utf8ByteSize. -/
def validateAuthTokens : Nat → List String → Option (Nat × Nat)
  | _, [] => none
  | i, t :: rest =>
    if t.utf8ByteSize < MinTokenLength then some (i, t.utf8ByteSize)
    else validateAuthTokens (i + 1) rest

/-- One inheritance step of the per-server defaulting loop of config.Load:
an absent option is filled from the proxy-level value, a present option is
kept. -/
def inheritOption {α : Type} (field proxyField : Option α) : Option α :=
  match field with
  | none => proxyField
  | some x => some x

/-- The four field updates the per-server loop of config.Load performs on
one options value. -/
def fillOptions (proxyOpts o : OptionsV2) : OptionsV2 :=
  { o with
    authTokens := inheritOption o.authTokens proxyOpts.authTokens
    panicIfInvalid := inheritOption o.panicIfInvalid proxyOpts.panicIfInvalid
    logEnabled := inheritOption o.logEnabled proxyOpts.logEnabled
    lazyLoad := inheritOption o.lazyLoad proxyOpts.lazyLoad }

/-- The per-server defaulting loop of config.Load: a nil options pointer
becomes the zero options value, and each of the four inheritable options
that is absent is filled from the proxy-level options. -/
def fillServerOptions (proxyOpts : OptionsV2) (c : MCPClientConfigV2) :
    MCPClientConfigV2 :=
  { c with options := some (fillOptions proxyOpts (c.options.getD emptyOptions)) }

/-- config.Load applied to the decoded configuration: requires mcpProxy,
defaults nil options, inherits per-server options from the proxy,
defaults the proxy type to sse, and validates auth-token strength for
non-stdio server modes. -/
def Load (conf : FullConfig) : Except LoadError Config :=
  match conf.mcpProxy with
  | none => .error .mcpProxyRequired
  | some p0 =>
    let proxyOpts := p0.options.getD emptyOptions
    let servers := conf.mcpServers.map (fun p => (p.1, fillServerOptions proxyOpts p.2))
    let ty := if p0.type = "" then MCPServerTypeSSE else p0.type
    let proxy : MCPProxyConfigV2 := { p0 with options := some proxyOpts, type := ty }
    if ty ≠ MCPServerTypeStdio ∧ (proxyOpts.authTokens.getD []).length > 0 then
      match validateAuthTokens 0 (proxyOpts.authTokens.getD []) with
      | some (i, l) => .error (.authTokenTooShort i l)
      | none => .ok ⟨proxy, servers⟩
    else .ok ⟨proxy, servers⟩

/-- The defaulted proxy record Load builds from a present proxy entry. -/
def loadedProxy (p0 : MCPProxyConfigV2) : MCPProxyConfigV2 :=
  { p0 with
    options := some (p0.options.getD emptyOptions)
    type := if p0.type = "" then MCPServerTypeSSE else p0.type }

/-- Unfolding of Load on a configuration with a present proxy entry. -/
theorem Load_some (p0 : MCPProxyConfigV2)
    (srv : List (String × MCPClientConfigV2)) :
    Load ⟨some p0, srv⟩ =
      (if (if p0.type = "" then MCPServerTypeSSE else p0.type) ≠ MCPServerTypeStdio ∧
          (((p0.options.getD emptyOptions).authTokens.getD []).length > 0) then
        match validateAuthTokens 0 ((p0.options.getD emptyOptions).authTokens.getD []) with
        | some (i, l) => .error (.authTokenTooShort i l)
        | none => .ok ⟨loadedProxy p0,
            srv.map (fun p => (p.1, fillServerOptions (p0.options.getD emptyOptions) p.2))⟩
      else .ok ⟨loadedProxy p0,
        srv.map (fun p => (p.1, fillServerOptions (p0.options.getD emptyOptions) p.2))⟩) := rfl

/-! ## Claim C9 -/

/-- fillServerOptions always yields present options, and every one of the
four inheritable options that was absent in the server entry equals the
proxy-level value. -/
theorem fillServerOptions_spec (proxyOpts : OptionsV2) (c : MCPClientConfigV2) :
    ∃ o : OptionsV2, (fillServerOptions proxyOpts c).options = some o ∧
      (((c.options.getD emptyOptions).authTokens = none →
          o.authTokens = proxyOpts.authTokens) ∧
       ((c.options.getD emptyOptions).panicIfInvalid = none →
          o.panicIfInvalid = proxyOpts.panicIfInvalid) ∧
       ((c.options.getD emptyOptions).logEnabled = none →
          o.logEnabled = proxyOpts.logEnabled) ∧
       ((c.options.getD emptyOptions).lazyLoad = none →
          o.lazyLoad = proxyOpts.lazyLoad)) := by
  refine ⟨fillOptions proxyOpts (c.options.getD emptyOptions), rfl, ?_, ?_, ?_, ?_⟩ <;>
    intro h <;> simp [fillOptions, inheritOption, h]

/-- C9: whenever Load succeeds, the proxy options are present, every
server has present options whose absent inheritable fields were filled
from the proxy-level options, and an empty proxy type was defaulted to
sse. -/
theorem load_applies_defaults (conf : FullConfig) (out : Config)
    (p0 : MCPProxyConfigV2) (h : Load conf = .ok out)
    (hp : conf.mcpProxy = some p0) :
    out.mcpProxy.options = some (p0.options.getD emptyOptions) ∧
    out.mcpServers.length = conf.mcpServers.length ∧
    (∀ i (hi : i < conf.mcpServers.length) (ho : i < out.mcpServers.length),
      ∃ o : OptionsV2,
        (out.mcpServers.get ⟨i, ho⟩).2.options = some o ∧
        ((((conf.mcpServers.get ⟨i, hi⟩).2.options.getD emptyOptions).authTokens = none →
            o.authTokens = (p0.options.getD emptyOptions).authTokens) ∧
         (((conf.mcpServers.get ⟨i, hi⟩).2.options.getD emptyOptions).panicIfInvalid = none →
            o.panicIfInvalid = (p0.options.getD emptyOptions).panicIfInvalid) ∧
         (((conf.mcpServers.get ⟨i, hi⟩).2.options.getD emptyOptions).logEnabled = none →
            o.logEnabled = (p0.options.getD emptyOptions).logEnabled) ∧
         (((conf.mcpServers.get ⟨i, hi⟩).2.options.getD emptyOptions).lazyLoad = none →
            o.lazyLoad = (p0.options.getD emptyOptions).lazyLoad))) ∧
    (p0.type = "" → out.mcpProxy.type = MCPServerTypeSSE) := by
  obtain ⟨mp, srv⟩ := conf
  have hmp : mp = some p0 := hp
  subst hmp
  rw [Load_some] at h
  have hout : out = ⟨loadedProxy p0,
      srv.map (fun p => (p.1, fillServerOptions (p0.options.getD emptyOptions) p.2))⟩ := by
    by_cases hcond : (if p0.type = "" then MCPServerTypeSSE else p0.type) ≠ MCPServerTypeStdio ∧
        (((p0.options.getD emptyOptions).authTokens.getD []).length > 0)
    · rw [if_pos hcond] at h
      cases hva : validateAuthTokens 0 ((p0.options.getD emptyOptions).authTokens.getD []) with
      | some pr =>
        obtain ⟨i, l⟩ := pr
        rw [hva] at h
        exact Except.noConfusion h
      | none =>
        rw [hva] at h
        exact (Except.ok.inj h).symm
    · rw [if_neg hcond] at h
      exact (Except.ok.inj h).symm
  subst hout
  refine ⟨rfl, by simp, ?_, ?_⟩
  · intro i hi ho
    have hi' : i < srv.length := by simpa using hi
    obtain ⟨o, ho1, ho2⟩ :=
      fillServerOptions_spec (p0.options.getD emptyOptions) (srv.get ⟨i, hi'⟩).2
    refine ⟨o, ?_, ?_⟩
    · simp only [List.get_eq_getElem, List.getElem_map]
      simp only [List.get_eq_getElem] at ho1
      exact ho1
    · simp only [List.get_eq_getElem] at ho2 ⊢
      exact ho2
  · intro hty0
    show (loadedProxy p0).type = MCPServerTypeSSE
    simp [loadedProxy, hty0]

/-- A concrete proxy configuration with empty type and absent options. -/
def loadProxyExample : MCPProxyConfigV2 :=
  { baseURL := "", addr := ":8080", name := "proxy", version := "1.0",
    type := "", hierarchyPath := "", options := none }

/-- A concrete full configuration with one server whose options are
absent. -/
def loadConfExample : FullConfig :=
  { mcpProxy := some loadProxyExample,
    mcpServers := [("joplin", stdioConfExample)] }

/-- The result Load produces on loadConfExample. -/
def loadOutExample : Config :=
  { mcpProxy := loadedProxy loadProxyExample,
    mcpServers := [("joplin", fillServerOptions emptyOptions stdioConfExample)] }

/-- Witness for C9: the theorem applied to a concrete configuration. -/
theorem load_applies_defaults_witness :
    loadOutExample.mcpProxy.options =
      some (loadProxyExample.options.getD emptyOptions) ∧
    loadOutExample.mcpProxy.type = MCPServerTypeSSE :=
  ⟨(load_applies_defaults loadConfExample loadOutExample loadProxyExample
      rfl rfl).1,
   (load_applies_defaults loadConfExample loadOutExample loadProxyExample
      rfl rfl).2.2.2 rfl⟩

/-! ## Claim C10 -/

/-- The token scan finds nothing exactly when every token is long
enough in bytes. -/
theorem validateAuthTokens_eq_none_iff (ts : List String) :
    ∀ i, validateAuthTokens i ts = none ↔
      ∀ t ∈ ts, ¬ t.utf8ByteSize < MinTokenLength := by
  induction ts with
  | nil => intro i; simp [validateAuthTokens]
  | cons t rest ih =>
    intro i
    by_cases h : t.utf8ByteSize < MinTokenLength
    · simp [validateAuthTokens, h]
    · rw [show validateAuthTokens i (t :: rest) = validateAuthTokens (i + 1) rest from by
        simp [validateAuthTokens, h]]
      rw [ih (i + 1)]
      constructor
      · intro hall t' ht'
        rcases List.mem_cons.mp ht' with rfl | hmem
        · exact h
        · exact hall t' hmem
      · intro hall t' ht'
        exact hall t' (List.mem_cons_of_mem t ht')

/-- A 21-character token made of two-byte characters: 42 UTF-8 bytes, so
Go len sees it as long enough while its character count is below
MinTokenLength. -/
def wideCharToken : String := "ααααααααααααααααααααα"

/-- A non-stdio proxy configured with only the wide-character token. -/
def wideCharProxy : MCPProxyConfigV2 :=
  { baseURL := "", addr := "", name := "proxy", version := "1.0",
    type := "sse", hierarchyPath := "",
    options := some { emptyOptions with authTokens := some [wideCharToken] } }

/-- The full configuration wrapping wideCharProxy. -/
def wideCharConf : FullConfig :=
  { mcpProxy := some wideCharProxy, mcpServers := [] }

/-- Counterexample to C10 as stated: the proxy type is not stdio and its
only auth token is 21 characters long, yet Load accepts the
configuration, because the source compares Go len, which counts UTF-8
bytes (here 42), against MinTokenLength. -/
theorem auth_token_chars_counterexample :
    wideCharProxy.type ≠ MCPServerTypeStdio ∧
    wideCharToken.length < MinTokenLength ∧
    wideCharToken.utf8ByteSize = 42 ∧
    Load wideCharConf =
      .ok { mcpProxy := loadedProxy wideCharProxy, mcpServers := [] } :=
  ⟨by decide, by decide, by decide, rfl⟩

/-- C10 amended: Load rejects for auth-token strength exactly when the
proxy type is not stdio and some configured token is shorter than
MinTokenLength UTF-8 bytes; with a stdio proxy type no token-length check
is performed and Load succeeds. -/
theorem auth_token_strength (conf : FullConfig) (p0 : MCPProxyConfigV2)
    (hp : conf.mcpProxy = some p0) :
    ((∃ i l, Load conf = .error (.authTokenTooShort i l)) ↔
      (p0.type ≠ MCPServerTypeStdio ∧
        ∃ t ∈ ((p0.options.getD emptyOptions).authTokens.getD []),
          t.utf8ByteSize < MinTokenLength)) ∧
    (p0.type = MCPServerTypeStdio → ∃ c : Config, Load conf = .ok c) := by
  obtain ⟨mp, srv⟩ := conf
  have hmp : mp = some p0 := hp
  subst hmp
  rw [Load_some]
  have htyeq : ((if p0.type = "" then MCPServerTypeSSE else p0.type) ≠ MCPServerTypeStdio) ↔
      (p0.type ≠ MCPServerTypeStdio) := by
    by_cases h0 : p0.type = ""
    · rw [if_pos h0]
      constructor
      · intro _ hc
        rw [hc] at h0
        exact absurd h0 (by decide)
      · intro _ hc
        exact absurd hc (by decide)
    · rw [if_neg h0]
  generalize hts : (p0.options.getD emptyOptions).authTokens.getD [] = ts
  constructor
  · by_cases hcond : (if p0.type = "" then MCPServerTypeSSE else p0.type) ≠ MCPServerTypeStdio ∧
        (ts.length > 0)
    · rw [if_pos hcond]
      cases hva : validateAuthTokens 0 ts with
      | some pr =>
        obtain ⟨i, l⟩ := pr
        have hshort : ∃ t ∈ ts, t.utf8ByteSize < MinTokenLength := by
          by_contra hno
          have hnone : validateAuthTokens 0 ts = none := by
            rw [validateAuthTokens_eq_none_iff ts 0]
            intro t htm hlt
            exact hno ⟨t, htm, hlt⟩
          rw [hnone] at hva
          exact Option.noConfusion hva
        constructor
        · intro _
          exact ⟨htyeq.mp hcond.1, hshort⟩
        · intro _
          exact ⟨i, l, rfl⟩
      | none =>
        have hlong : ∀ t ∈ ts, ¬ t.utf8ByteSize < MinTokenLength :=
          (validateAuthTokens_eq_none_iff ts 0).mp hva
        constructor
        · rintro ⟨i, l, habs⟩
          exact Except.noConfusion habs
        · rintro ⟨_, t, htm, hlt⟩
          exact absurd hlt (hlong t htm)
    · rw [if_neg hcond]
      constructor
      · rintro ⟨i, l, habs⟩
        exact Except.noConfusion habs
      · rintro ⟨hnstdio, t, htm, hlt⟩
        refine absurd ⟨htyeq.mpr hnstdio, ?_⟩ hcond
        cases ts with
        | nil => exact absurd htm (List.not_mem_nil t)
        | cons a rest => simp
  · intro hstdio
    have hne : ¬ ((if p0.type = "" then MCPServerTypeSSE else p0.type) ≠ MCPServerTypeStdio ∧
        (ts.length > 0)) := by
      rintro ⟨hne', _⟩
      exact (htyeq.mp hne') hstdio
    rw [if_neg hne]
    exact ⟨_, rfl⟩

/-- A concrete configuration with a stdio proxy type and a short auth
token. -/
def stdioShortTokenProxy : MCPProxyConfigV2 :=
  { baseURL := "", addr := "", name := "proxy", version := "1.0",
    type := "stdio", hierarchyPath := "~/.claude/lazy-mcp/hierarchy",
    options := some { emptyOptions with authTokens := some ["short"] } }

/-- The full configuration wrapping stdioShortTokenProxy. -/
def stdioShortTokenConf : FullConfig :=
  { mcpProxy := some stdioShortTokenProxy, mcpServers := [] }

/-- Witness for C10: a stdio proxy with a 5-character token loads
successfully because the token-length check is skipped. -/
theorem auth_token_strength_witness :
    ∃ c : Config, Load stdioShortTokenConf = .ok c :=
  (auth_token_strength stdioShortTokenConf stdioShortTokenProxy rfl).2 rfl

/-! ## Connection pool single-flight model (claim C2)

The connection pool lives in the internal client and server packages,
which are not present in the source tree; the model below follows the
specification sections on the per-backend state machine and the
single-flight guarantee. -/

/-- Modelled from the spec: the per-backend connection states of the
Connection Pool (the internal pool code is not in the source tree).
Transitions are monotonic: Cold to Connecting to Ready, or Connecting to
Failed. -/
inductive ConnState where
  | cold
  | connecting
  | ready
  | failed
deriving Repr, DecidableEq

/-- Modelled from the spec: the observable pool state for one backend,
together with the number of Connect attempts issued so far. -/
structure PoolState where
  conn : ConnState
  connectAttempts : Nat
deriving Repr, DecidableEq

/-- Modelled from the spec: the events that can happen to one backend:
some caller requests the connection (a concurrent execute_tool call), or
the in-flight connect attempt completes with success or failure. -/
inductive PoolEvent where
  | acquire (caller : Nat)
  | complete (success : Bool)
deriving Repr, DecidableEq

/-- Modelled from the spec: what one acquire returns to its caller: it
started the single connect attempt, it awaits the in-flight attempt, or
it observes the recorded Ready or Failed outcome. -/
inductive AcquireResult where
  | startedConnect
  | awaitInFlight
  | useReady
  | useFailed
deriving Repr, DecidableEq

/-- Whether an acquire result represents issuing a Connect attempt. -/
def AcquireResult.isStarted : AcquireResult → Bool
  | .startedConnect => true
  | _ => false

/-- Modelled from the spec: one step of the pool for one backend.  An
acquire on a Cold backend issues the one Connect attempt; an acquire in
any other state issues none: while Connecting the caller awaits the
in-flight attempt, and on Ready or Failed it observes the recorded
outcome.  A completion while Connecting records Ready or Failed. -/
def poolStep (s : PoolState) : PoolEvent → PoolState × Option AcquireResult
  | .acquire _ =>
    match s.conn with
    | .cold =>
      ({ conn := .connecting, connectAttempts := s.connectAttempts + 1 },
        some .startedConnect)
    | .connecting => (s, some .awaitInFlight)
    | .ready => (s, some .useReady)
    | .failed => (s, some .useFailed)
  | .complete ok =>
    match s.conn with
    | .connecting =>
      ({ s with conn := if ok then .ready else .failed }, none)
    | _ => (s, none)

/-- Modelled from the spec: an interleaving of events applied to the
pool, collecting the results returned to the acquiring callers. -/
def runPool (s : PoolState) : List PoolEvent → PoolState × List AcquireResult
  | [] => (s, [])
  | e :: rest =>
    let step := poolStep s e
    let tail := runPool step.1 rest
    (tail.1, step.2.toList ++ tail.2)

/-- Modelled from the spec: the state of a backend before any caller
touches it. -/
def initialPool : PoolState := { conn := .cold, connectAttempts := 0 }

/-- Whether an event is an acquire by some caller. -/
def PoolEvent.isAcquire : PoolEvent → Bool
  | .acquire _ => true
  | .complete _ => false

/-- The single-flight invariant of one backend: still Cold with no
Connect attempt issued, or past Cold with exactly one issued. -/
def PoolInv (s : PoolState) : Prop :=
  (s.conn = .cold ∧ s.connectAttempts = 0) ∨
  (s.conn ≠ .cold ∧ s.connectAttempts = 1)

/-- Every pool step preserves the single-flight invariant. -/
theorem poolStep_inv (s : PoolState) (e : PoolEvent) (hs : PoolInv s) :
    PoolInv (poolStep s e).1 := by
  cases e with
  | acquire c =>
    cases hc : s.conn with
    | cold =>
      rcases hs with ⟨_, h0⟩ | ⟨hne, _⟩
      · right
        refine ⟨?_, ?_⟩ <;> simp [poolStep, hc, h0]
      · exact absurd hc hne
    | connecting => simpa [poolStep, hc] using hs
    | ready => simpa [poolStep, hc] using hs
    | failed => simpa [poolStep, hc] using hs
  | complete ok =>
    cases hc : s.conn with
    | cold => simpa [poolStep, hc] using hs
    | connecting =>
      rcases hs with ⟨hcold, _⟩ | ⟨_, h1⟩
      · rw [hc] at hcold
        exact ConnState.noConfusion hcold
      · right
        refine ⟨?_, ?_⟩
        · cases ok <;> simp [poolStep, hc]
        · simp [poolStep, hc, h1]
    | ready => simpa [poolStep, hc] using hs
    | failed => simpa [poolStep, hc] using hs

/-- Each step raises the attempt counter by exactly the number of
startedConnect results it hands out. -/
theorem poolStep_attempts (s : PoolState) (e : PoolEvent) :
    (poolStep s e).1.connectAttempts =
      s.connectAttempts +
        ((poolStep s e).2.toList.countP AcquireResult.isStarted) := by
  cases e with
  | acquire c =>
    cases hc : s.conn <;>
      simp [poolStep, hc, Option.toList, AcquireResult.isStarted]
  | complete ok =>
    cases hc : s.conn <;>
      simp [poolStep, hc, Option.toList]

/-- An acquire always leaves the backend past Cold. -/
theorem poolStep_acquire_warm (s : PoolState) (e : PoolEvent)
    (he : e.isAcquire = true) : (poolStep s e).1.conn ≠ .cold := by
  cases e with
  | acquire c =>
    cases hc : s.conn <;> simp [poolStep, hc]
  | complete ok => simp [PoolEvent.isAcquire] at he

/-- A backend past Cold never returns to Cold in one step. -/
theorem poolStep_stays_warm (s : PoolState) (e : PoolEvent)
    (hs : s.conn ≠ .cold) : (poolStep s e).1.conn ≠ .cold := by
  cases e with
  | acquire c =>
    cases hc : s.conn with
    | cold => exact absurd hc hs
    | connecting => simp [poolStep, hc]
    | ready => simp [poolStep, hc]
    | failed => simp [poolStep, hc]
  | complete ok =>
    cases hc : s.conn with
    | cold => exact absurd hc hs
    | connecting => cases ok <;> simp [poolStep, hc]
    | ready => simp [poolStep, hc]
    | failed => simp [poolStep, hc]

/-- Any run preserves the single-flight invariant. -/
theorem runPool_inv (events : List PoolEvent) :
    ∀ s : PoolState, PoolInv s → PoolInv (runPool s events).1 := by
  induction events with
  | nil => intro s hs; exact hs
  | cons e rest ih =>
    intro s hs
    simpa [runPool] using ih (poolStep s e).1 (poolStep_inv s e hs)

/-- Over any run, the attempt counter grows by exactly the number of
startedConnect results handed out. -/
theorem runPool_attempts (events : List PoolEvent) :
    ∀ s : PoolState, (runPool s events).1.connectAttempts =
      s.connectAttempts +
        ((runPool s events).2.countP AcquireResult.isStarted) := by
  induction events with
  | nil => intro s; simp [runPool]
  | cons e rest ih =>
    intro s
    have h1 := ih (poolStep s e).1
    have h2 := poolStep_attempts s e
    simp only [runPool, List.countP_append] at h1 ⊢
    omega

/-- A backend past Cold never returns to Cold over any run. -/
theorem runPool_stays_warm (events : List PoolEvent) :
    ∀ s : PoolState, s.conn ≠ .cold → (runPool s events).1.conn ≠ .cold := by
  induction events with
  | nil => intro s hs; exact hs
  | cons e rest ih =>
    intro s hs
    simpa [runPool] using ih (poolStep s e).1 (poolStep_stays_warm s e hs)

/-- If some caller acquired during the run, the backend ends past Cold. -/
theorem runPool_acquire_warm (events : List PoolEvent) :
    ∀ s : PoolState, events.any PoolEvent.isAcquire = true →
      (runPool s events).1.conn ≠ .cold := by
  induction events with
  | nil =>
    intro s habs
    simp at habs
  | cons e rest ih =>
    intro s hany
    have hor : PoolEvent.isAcquire e = true ∨
        rest.any PoolEvent.isAcquire = true := by
      simpa [List.any_cons] using hany
    rcases hor with h | h
    · simp only [runPool]
      exact runPool_stays_warm rest (poolStep s e).1 (poolStep_acquire_warm s e h)
    · simp only [runPool]
      exact ih (poolStep s e).1 h

/-- C2 (modelled from the spec): however many concurrent callers race a
Cold backend, once at least one acquire has happened, exactly one Connect
attempt has been issued, and exactly one caller started it: every other
acquire awaited the in-flight attempt or observed its recorded outcome. -/
theorem pool_single_flight (events : List PoolEvent)
    (h : events.any PoolEvent.isAcquire = true) :
    (runPool initialPool events).1.connectAttempts = 1 ∧
    (runPool initialPool events).2.countP AcquireResult.isStarted = 1 := by
  have hinv := runPool_inv events initialPool (Or.inl ⟨rfl, rfl⟩)
  have hatt := runPool_attempts events initialPool
  have hwarm := runPool_acquire_warm events initialPool h
  rcases hinv with ⟨hcold, _⟩ | ⟨_, hone⟩
  · exact absurd hcold hwarm
  · refine ⟨hone, ?_⟩
    rw [hone] at hatt
    simpa [initialPool] using hatt.symm

/-- Witness for C2: three callers race a Cold backend, the attempt
completes in between; exactly one Connect attempt is issued. -/
theorem pool_single_flight_witness :
    (runPool initialPool
      [.acquire 0, .acquire 1, .complete true, .acquire 2]).1.connectAttempts = 1 ∧
    (runPool initialPool
      [.acquire 0, .acquire 1, .complete true, .acquire 2]).2.countP
        AcquireResult.isStarted = 1 :=
  pool_single_flight [.acquire 0, .acquire 1, .complete true, .acquire 2]
    (by decide)

/-! ## Argument adapter model (claim C3)

The envelope auto-wrap adapter lives in the dispatch router, which is not
present in the source tree; the model below follows the specification
section on the Argument Adapter and the WrapCache. -/

/-- Modelled from the spec: argument values exchanged with a backend.  A
flat object is identified abstractly; wrapping nests the entire original
argument object under one field name. -/
inductive ArgValue where
  | flat (id : Nat)
  | wrapped (field : String) (inner : ArgValue)
deriving Repr, DecidableEq

/-- Modelled from the spec: the expected type a structured validation
failure reports for its missing field. -/
inductive FieldType where
  | object
  | nonObject
deriving Repr, DecidableEq

/-- Modelled from the spec: a backend response to one tool call: success,
a structured validation failure naming exactly one missing required field
with its expected type, or any other failure. -/
inductive BackendResponse (R : Type) where
  | success (r : R)
  | missingRequiredField (name : String) (expected : FieldType)
  | otherFailure
deriving Repr, DecidableEq

/-- Modelled from the spec: the errors the adapter surfaces to its
caller. -/
inductive AdapterError where
  | validationFailed (field : String) (expected : FieldType)
  | backendFailure
deriving Repr, DecidableEq

/-- Modelled from the spec: the WrapCache, keyed by backend and tool
name; the value is the discovered envelope field, or none when the tool
takes flat arguments. -/
def WrapCache : Type := List ((String × String) × Option String)

/-- Lookup of one (backend, toolName) key in the WrapCache. -/
def cacheLookup : WrapCache → String × String → Option (Option String)
  | [], _ => none
  | (k, v) :: rest, key => if k = key then some v else cacheLookup rest key

/-- The outcome of one adapted call: the result surfaced to the caller,
the updated WrapCache, and the requests actually sent to the backend in
order. -/
structure CallOutcome (R : Type) where
  result : Except AdapterError R
  cache : WrapCache
  sent : List ArgValue

/-- Modelled from the spec: the Argument Adapter.  A cached envelope
field makes the call proactively wrapped with no retry; a cached none
makes it flat with no retry.  On a first call the arguments go out
unmodified; exactly when the response is a structured validation failure
naming one missing required field of object type, the call is retried
once with the original arguments nested under that field, and the
discovered outcome is cached; any other failure propagates unmodified
and caches nothing. -/
def callWithWrap {R : Type} (backend : ArgValue → BackendResponse R)
    (cache : WrapCache) (key : String × String) (args : ArgValue) :
    CallOutcome R :=
  match cacheLookup cache key with
  | some (some f) =>
    match backend (.wrapped f args) with
    | .success r => ⟨.ok r, cache, [.wrapped f args]⟩
    | .missingRequiredField n t => ⟨.error (.validationFailed n t), cache, [.wrapped f args]⟩
    | .otherFailure => ⟨.error .backendFailure, cache, [.wrapped f args]⟩
  | some none =>
    match backend args with
    | .success r => ⟨.ok r, cache, [args]⟩
    | .missingRequiredField n t => ⟨.error (.validationFailed n t), cache, [args]⟩
    | .otherFailure => ⟨.error .backendFailure, cache, [args]⟩
  | none =>
    match backend args with
    | .success r => ⟨.ok r, (key, none) :: cache, [args]⟩
    | .missingRequiredField f .object =>
      match backend (.wrapped f args) with
      | .success r => ⟨.ok r, (key, some f) :: cache, [args, .wrapped f args]⟩
      | _ => ⟨.error (.validationFailed f .object), (key, some f) :: cache,
          [args, .wrapped f args]⟩
    | .missingRequiredField n t => ⟨.error (.validationFailed n t), cache, [args]⟩
    | .otherFailure => ⟨.error .backendFailure, cache, [args]⟩

/-- C3 (modelled from the spec): on a first call the arguments are sent
unmodified; exactly when the response names one missing required field of
object type is the call retried, exactly once, with the original
arguments nested under that field; and the outcome is cached per
(backend, toolName) so every subsequent call is sent in the correct
shape with zero retries. -/
theorem argument_adapter_policy {R : Type}
    (backend : ArgValue → BackendResponse R) (cache : WrapCache)
    (key : String × String) (args : ArgValue)
    (hfirst : cacheLookup cache key = none) :
    ((callWithWrap backend cache key args).sent.head? = some args) ∧
    (∀ f, backend args = .missingRequiredField f .object →
      (callWithWrap backend cache key args).sent = [args, .wrapped f args]) ∧
    ((∀ f, backend args ≠ .missingRequiredField f .object) →
      (callWithWrap backend cache key args).sent = [args]) ∧
    (∀ r, backend args = .success r →
      cacheLookup (callWithWrap backend cache key args).cache key = some none ∧
      ∀ args2, (callWithWrap backend
        (callWithWrap backend cache key args).cache key args2).sent = [args2]) ∧
    (∀ f, backend args = .missingRequiredField f .object →
      cacheLookup (callWithWrap backend cache key args).cache key = some (some f) ∧
      ∀ args2, (callWithWrap backend
        (callWithWrap backend cache key args).cache key args2).sent =
          [.wrapped f args2]) := by
  refine ⟨?_, ?_, ?_, ?_, ?_⟩
  · cases hb : backend args with
    | success r => simp [callWithWrap, hfirst, hb]
    | missingRequiredField n t =>
      cases t with
      | object =>
        cases hb2 : backend (.wrapped n args) <;>
          simp [callWithWrap, hfirst, hb, hb2]
      | nonObject => simp [callWithWrap, hfirst, hb]
    | otherFailure => simp [callWithWrap, hfirst, hb]
  · intro f hb
    cases hb2 : backend (.wrapped f args) <;>
      simp [callWithWrap, hfirst, hb, hb2]
  · intro hno
    cases hb : backend args with
    | success r => simp [callWithWrap, hfirst, hb]
    | missingRequiredField n t =>
      cases t with
      | object => exact absurd hb (hno n)
      | nonObject => simp [callWithWrap, hfirst, hb]
    | otherFailure => simp [callWithWrap, hfirst, hb]
  · intro r hb
    have hcache : (callWithWrap backend cache key args).cache =
        (key, none) :: cache := by
      simp [callWithWrap, hfirst, hb]
    have hlook : cacheLookup (callWithWrap backend cache key args).cache key =
        some none := by
      rw [hcache]
      simp [cacheLookup]
    refine ⟨hlook, ?_⟩
    intro args2
    rw [hcache]
    cases hb2 : backend args2 <;> simp [callWithWrap, cacheLookup, hb2]
  · intro f hb
    have hcache : (callWithWrap backend cache key args).cache =
        (key, some f) :: cache := by
      cases hb2 : backend (.wrapped f args) <;>
        simp [callWithWrap, hfirst, hb, hb2]
    have hlook : cacheLookup (callWithWrap backend cache key args).cache key =
        some (some f) := by
      rw [hcache]
      simp [cacheLookup]
    refine ⟨hlook, ?_⟩
    intro args2
    rw [hcache]
    cases hb2 : backend (.wrapped f args2) <;>
      simp [callWithWrap, cacheLookup, hb2]

/-- Modelled from the spec: a backend tool that requires its arguments
nested under the params envelope field: a wrapped call succeeds, a flat
call reports params as the one missing required object field. -/
def envelopeBackend : ArgValue → BackendResponse Nat
  | .wrapped "params" _ => .success 1
  | _ => .missingRequiredField "params" .object

/-- Witness for C3: calling an envelope-requiring tool with flat
arguments on an empty cache sends the flat form then the wrapped form,
and the subsequent call with the updated cache is sent already wrapped. -/
theorem argument_adapter_policy_witness :
    (callWithWrap envelopeBackend [] ("vikunja", "create_task")
      (.flat 0)).sent = [.flat 0, .wrapped "params" (.flat 0)] ∧
    (callWithWrap envelopeBackend
      (callWithWrap envelopeBackend [] ("vikunja", "create_task")
        (.flat 0)).cache
      ("vikunja", "create_task") (.flat 1)).sent =
        [.wrapped "params" (.flat 1)] :=
  ⟨(argument_adapter_policy envelopeBackend [] ("vikunja", "create_task")
      (.flat 0) rfl).2.1 "params" rfl,
   ((argument_adapter_policy envelopeBackend [] ("vikunja", "create_task")
      (.flat 0) rfl).2.2.2.2 "params" rfl).2 (.flat 1)⟩

/-! ## Hierarchy catalog model (claim C7)

The generator package (GenerateStructure) and the internal hierarchy
package are not present in the source tree; the model below follows the
specification section on the Hierarchy Catalog: the root enumerates every
configured backend as a direct child, and each backend node holds the
leaf tools produced from that backend's tool listing at catalog-build
time. -/

/-- Modelled from the spec: the per-backend entry of the catalog built
from one ServerTools listing: the backend name and its leaf tool names. -/
structure CatalogBackend where
  name : String
  toolNames : List String
deriving Repr, DecidableEq

/-- Modelled from the spec: catalog construction from the build-time
server listings, one root child per configured backend. -/
def buildCatalog (servers : List ServerTools) : List CatalogBackend :=
  servers.map (fun s => ⟨s.serverName, s.tools.map Tool.name⟩)

/-- Modelled from the spec: what get_tools_in_category on the root path
lists: the name of every configured backend. -/
def rootCategoryListing (cat : List CatalogBackend) : List String :=
  cat.map CatalogBackend.name

/-- Modelled from the spec: the sum of leaf-tool counts under one backend
name in the catalog. -/
def leafToolCount (cat : List CatalogBackend) (backend : String) : Nat :=
  ((cat.filter (fun b => b.name = backend)).map
    (fun b => b.toolNames.length)).sum

/-- Leaf counting over a catalog built from listings with pairwise
distinct names picks out exactly the one matching backend. -/
theorem leafToolCount_buildCatalog (servers : List ServerTools)
    (hnodup : (servers.map ServerTools.serverName).Nodup) :
    ∀ s ∈ servers, leafToolCount (buildCatalog servers) s.serverName =
      s.tools.length := by
  induction servers with
  | nil => intro s hs; exact absurd hs (List.not_mem_nil s)
  | cons hd rest ih =>
    intro s hs
    have hnodup' : (rest.map ServerTools.serverName).Nodup :=
      (List.nodup_cons.mp hnodup).2
    have hhd : hd.serverName ∉ rest.map ServerTools.serverName :=
      (List.nodup_cons.mp hnodup).1
    rcases List.mem_cons.mp hs with rfl | hmem
    · have hrest : leafToolCount (buildCatalog rest) s.serverName = 0 := by
        unfold leafToolCount buildCatalog
        have hfil : (rest.map
            (fun t => (⟨t.serverName, t.tools.map Tool.name⟩ : CatalogBackend))).filter
              (fun b => b.name = s.serverName) = [] := by
          rw [List.filter_eq_nil_iff]
          intro b hb
          obtain ⟨t, ht, rfl⟩ := List.mem_map.mp hb
          simp only [decide_eq_true_eq]
          intro heq
          exact hhd (heq ▸ List.mem_map_of_mem ServerTools.serverName ht)
        rw [hfil]
        rfl
      unfold leafToolCount buildCatalog
      simp only [List.map_cons, List.filter_cons]
      rw [if_pos (by simp)]
      simp only [List.map_cons, List.sum_cons]
      have := hrest
      unfold leafToolCount buildCatalog at this
      rw [this]
      simp
    · have hne : hd.serverName ≠ s.serverName := by
        intro heq
        exact hhd (heq ▸ List.mem_map_of_mem ServerTools.serverName hmem)
      unfold leafToolCount buildCatalog
      simp only [List.map_cons, List.filter_cons]
      rw [if_neg (by simpa using hne)]
      exact ih hnodup' s hmem

/-- C7 (modelled from the spec): with pairwise distinct backend names,
every configured backend appears exactly once in the root category
listing, and the leaf-tool count under a backend equals the number of
tools that backend reported at catalog-build time. -/
theorem catalog_root_and_counts (servers : List ServerTools)
    (hnodup : (servers.map ServerTools.serverName).Nodup) :
    ∀ s ∈ servers,
      (rootCategoryListing (buildCatalog servers)).count s.serverName = 1 ∧
      leafToolCount (buildCatalog servers) s.serverName = s.tools.length := by
  intro s hs
  refine ⟨?_, leafToolCount_buildCatalog servers hnodup s hs⟩
  have hroot : rootCategoryListing (buildCatalog servers) =
      servers.map ServerTools.serverName := by
    unfold rootCategoryListing buildCatalog
    rw [List.map_map]
    rfl
  rw [hroot]
  exact List.count_eq_one_of_mem hnodup
    (List.mem_map_of_mem ServerTools.serverName hs)

/-- Two concrete build-time listings. -/
def todoistListing : ServerTools :=
  { serverName := "todoist",
    tools := [⟨"create_task", "create a task"⟩, ⟨"list_tasks", "list tasks"⟩] }

/-- A second concrete build-time listing. -/
def joplinListing : ServerTools :=
  { serverName := "joplin", tools := [⟨"search_notes", "search notes"⟩] }

/-- Witness for C7: in the catalog built from two distinct listings each
backend is listed once at the root and its leaf count matches its
build-time tool count. -/
theorem catalog_root_and_counts_witness :
    (rootCategoryListing
      (buildCatalog [todoistListing, joplinListing])).count "todoist" = 1 ∧
    leafToolCount (buildCatalog [todoistListing, joplinListing]) "todoist" = 2 :=
  catalog_root_and_counts [todoistListing, joplinListing] (by decide)
    todoistListing (by decide)

end MCPProxy
